import Mathlib

/-!
Formal model of the `hex-magic` procedural-macro crate: the `hex!` string
lexer (`src/hex_string/mod.rs`), the byte-pattern unifier
(`src/parse_struct/byte_pattern.rs`), the struct-field grammar
(`src/parse_struct/hex_struct_field.rs`), the plan compiler
(`src/parse_struct/hex_struct.rs`), and the run-time semantics of the
code those `to_tokens` implementations emit.

Modelling conventions:
* Characters and bytes are `Nat` (the Rust code iterates over `u8`;
  every value the model constructs stays below 256).
* `proc_macro2::Span` values carry no semantic content (every error in
  the lexer reuses the one span of the string literal), so spans are
  dropped; errors carry the offending character instead, mirroring the
  `format!` messages of the source.
* `syn` token streams are modelled as a list of pre-lexed tokens `Tok`;
  a whole pattern literal or transform expression is one token, since
  the source delegates their parsing to `syn`.  Outer/inner attributes
  and integer (tuple-index) members carry no semantics relevant to the
  claims and are not modelled.
* Array-pattern elements are modelled by `SynExpr` covering the literal,
  `_`-discard and range expression forms the source inspects
  (`Expr::Range` is the only variant `byte_pattern.rs` matches on).
* The reader passed to the generated plan is modelled as a script: the
  result of each successive `Read::read` call (some bytes, or an I/O
  error), which is exactly the `Read` contract the generated code uses.
-/

namespace HexMagic

/-! ## Hex string lexer (`src/hex_string/mod.rs`, `impl Parse for HexString`) -/

/-- `HexValue` from `hex_string/mod.rs` (spans dropped). -/
inductive HexValue where
  | number (value : Nat)
  | underscore
  | dotdot
deriving DecidableEq, Repr

/-- Lexical errors of `impl Parse for HexString`; each constructor is one
of the four `syn::Error::new(span, format!(...))` sites and carries the
offending character exactly as the message does. -/
inductive LexError where
  | expectedDot (c : Nat)
  | expectedUnderscore (c : Nat)
  | expectedHexDigit (c : Nat)
  | invalidChar (c : Nat)
deriving DecidableEq, Repr

/-- The mutable state of the character loop of `impl Parse for
HexString`: `msb` (the pending high nibble) and the three pending
flags. -/
structure LexState where
  msb : Nat
  needHex : Bool
  needUnderscore : Bool
  needDot : Bool
deriving DecidableEq, Repr

/-- What one iteration of the loop does: push a completed token (with
the updated flags), just update the state, or return an error. -/
inductive LexStep where
  | push (v : HexValue) (st : LexState)
  | cont (st : LexState)
  | fail (e : LexError)
deriving DecidableEq, Repr

/-- The body of the `for c in chars` loop of `impl Parse for
HexString`, with the match arms translated in source order.
Character codes: 46 = `.`, 95 = `_`, 48-57 = `0`-`9`, 97-102 = `a`-`f`,
65-70 = `A`-`F`, 32/13/10/9 = space/CR/LF/TAB. -/
def lexStep (st : LexState) (c : Nat) : LexStep :=
  if c = 46 then
    if st.needDot then .push HexValue.dotdot { st with needDot := false }
    else .cont { st with needDot := true }
  else if st.needDot then .fail (LexError.expectedDot c)
  else if c = 95 then
    if st.needUnderscore then .push HexValue.underscore { st with needUnderscore := false }
    else .cont { st with needUnderscore := true }
  else if st.needUnderscore then .fail (LexError.expectedUnderscore c)
  else if 48 ≤ c ∧ c ≤ 57 then
    if st.needHex then
      .push (HexValue.number (st.msb <<< 4 ||| (c - 48))) { st with needHex := false }
    else .cont { st with msb := c - 48, needHex := true }
  else if 97 ≤ c ∧ c ≤ 102 then
    if st.needHex then
      .push (HexValue.number (st.msb <<< 4 ||| (c - 97 + 10))) { st with needHex := false }
    else .cont { st with msb := c - 97 + 10, needHex := true }
  else if 65 ≤ c ∧ c ≤ 70 then
    if st.needHex then
      .push (HexValue.number (st.msb <<< 4 ||| (c - 65 + 10))) { st with needHex := false }
    else .cont { st with msb := c - 65 + 10, needHex := true }
  else if st.needHex then .fail (LexError.expectedHexDigit c)
  else if c = 32 ∨ c = 13 ∨ c = 10 ∨ c = 9 then .cont st
  else .fail (LexError.invalidChar c)

/-- The character loop of `impl Parse for HexString`: apply `lexStep`
to each character, collecting pushed tokens in order; an error aborts.
Note the loop ends in `Ok(Self { elems })` with no check of the pending
flags, exactly as the source does. -/
def hexLexGo (st : LexState) : List Nat → Except LexError (List HexValue)
  | [] => .ok []
  | c :: rest =>
    match lexStep st c with
    | .fail e => .error e
    | .cont st' => hexLexGo st' rest
    | .push v st' => Except.map (fun es => v :: es) (hexLexGo st' rest)

/-- `HexString` parsing: run the loop from the initial state
(`msb = 0`, all pending flags clear). -/
def hexLex (chars : List Nat) : Except LexError (List HexValue) :=
  hexLexGo ⟨0, false, false, false⟩ chars

/-- Instrumented copy of `hexLexGo` that also returns the final loop
state, used to phrase "the automaton is idle here" hypotheses.
Agreement with `hexLexGo` is proved in `hexLexGo_eq_st`. -/
def hexLexGoSt (st : LexState) : List Nat → Except LexError (List HexValue × LexState)
  | [] => .ok ([], st)
  | c :: rest =>
    match lexStep st c with
    | .fail e => .error e
    | .cont st' => hexLexGoSt st' rest
    | .push v st' => Except.map (fun p => (v :: p.1, p.2)) (hexLexGoSt st' rest)

/-! ## Display (`impl Display for HexValue` / `HexString` /
`BytePattern`, and the `{:02X?}` debug rendering of byte buffers) -/

/-- Code of the uppercase hex digit for a nibble, as `{:02X}` renders it. -/
def hexDigitCode (n : Nat) : Nat :=
  if n < 10 then 48 + n else 55 + n

/-- `format!("{:02X}", v)` for a `u8` value `v` (two uppercase digits). -/
def byteHex (v : Nat) : String :=
  String.mk [Char.ofNat (hexDigitCode (v / 16)), Char.ofNat (hexDigitCode (v % 16))]

/-- `impl Display for HexValue`. -/
def hexValueDisplay : HexValue → String
  | .number v => byteHex v
  | .underscore => "__"
  | .dotdot => ".."

/-- `impl Display for HexString`: elements joined by `", "` inside `[` `]`. -/
def hexStringDisplay (es : List HexValue) : String :=
  "[" ++ String.intercalate ", " (es.map hexValueDisplay) ++ "]"

/-- `format!("{:02X?}", buf)` for a byte array: debug list of
two-uppercase-hex-digit bytes. -/
def debugBytes (buf : List Nat) : String :=
  "[" ++ String.intercalate ", " (buf.map byteHex) ++ "]"

/-! ## Byte patterns (`src/parse_struct/byte_pattern.rs`) -/

/-- Array-pattern elements / transform expressions, covering the
expression forms the source distinguishes: a literal byte, the `_`
discard expression, and a range expression (`Expr::Range`, the one
variant `byte_pattern.rs` matches on). -/
inductive SynExpr where
  | lit (v : Nat)
  | underscore
  | range
deriving DecidableEq, Repr

/-- The three surface forms accepted where a pattern is expected,
pre-dispatched the way `BytePattern::parse` peeks (`LitByteStr`,
`LitStr`, bracketed array).  `litStr` carries the string's bytes,
which `HexString::parse` consumes. -/
inductive PatternInput where
  | litByteStr (bytes : List Nat)
  | litStr (chars : List Nat)
  | array (elems : List SynExpr)
deriving DecidableEq, Repr

/-- Compile-time (specification) errors of the pattern and field
parsers.  `rangesNotAllowed` is the error "ranges are not allowed in
byte patterns" raised at both range-rejection sites;
`bindingNotAllowed` is "binding of `_` match-only byte patterns is not
allowed"; the `expected*` constructors model the `syn` errors raised
when parsing the corresponding mandatory token fails. -/
inductive ParseErr where
  | lex (e : LexError)
  | rangesNotAllowed
  | bindingNotAllowed
  | expectedColon
  | expectedAtSign
  | expectedFatArrow
  | expectedComma
  | expectedExpr
  | expectedPattern
  | expectedMember
  | fuel
deriving DecidableEq, Repr

/-- `BytePattern` from `byte_pattern.rs` (the `HexString` wrapper struct
is flattened to its element list; `Attribute`/`Bracket` bookkeeping of
the `Array` variant is dropped). -/
inductive BytePattern where
  | array (elems : List SynExpr)
  | hexString (elems : List HexValue)
  | litByteStr (bytes : List Nat)
deriving DecidableEq, Repr

/-- `BytePattern::len`: array element count / hex token count /
byte-string byte count. -/
def BytePattern.len : BytePattern → Nat
  | .array elems => elems.length
  | .hexString hex => hex.length
  | .litByteStr bs => bs.length

/-- Display of one array element as `impl Display for BytePattern` does
it: the element is rendered back to source text via `quote!`, then
re-rendered as `{:02X}` when that text parses as a `u8` (decimal
literals up to 255), else kept as-is.  `lit v` models a decimal literal
with text `toString v`. -/
def synExprDisplay : SynExpr → String
  | .lit v => if v < 256 then byteHex v else toString v
  | .underscore => "_"
  | .range => ".."

/-- `impl Display for BytePattern`.  For a byte-string literal the
source prints the literal's token (`b"..."`); escape sequences of
non-printable bytes are not modelled. -/
def BytePattern.display : BytePattern → String
  | .array elems => "[" ++ String.intercalate ", " (elems.map synExprDisplay) ++ "]"
  | .hexString hex => hexStringDisplay hex
  | .litByteStr bs => "b" ++ "\"" ++ String.mk (bs.map Char.ofNat) ++ "\""

/-- Does a lexed hex string contain a `..` token?  (the `for elem in
hex.elems()` loop of `BytePattern::parse`). -/
def hasDotDot (es : List HexValue) : Bool :=
  es.any fun e => match e with | .dotdot => true | _ => false

/-- Does an array pattern contain a range expression?  (the `for elem in
&elems` loop of `BytePattern::parse`). -/
def hasRangeExpr (es : List SynExpr) : Bool :=
  es.any fun e => match e with | .range => true | _ => false

/-- `impl Parse for BytePattern`: dispatch on the surface form; lex hex
strings and reject `..` tokens; reject `Expr::Range` array elements;
accept byte strings verbatim. -/
def bytePatternParse : PatternInput → Except ParseErr BytePattern
  | .litByteStr bs => .ok (.litByteStr bs)
  | .litStr chars =>
    match hexLex chars with
    | .error e => .error (.lex e)
    | .ok hex =>
      if hasDotDot hex then .error .rangesNotAllowed
      else .ok (.hexString hex)
  | .array elems =>
    if hasRangeExpr elems then .error .rangesNotAllowed
    else .ok (.array elems)

/-! ## Matcher view of a pattern (spec §3 `ByteMatcher`; run-time
semantics of the `match` arm the pattern expands to via `ToTokens`) -/

/-- One position of a pattern: exact byte, single-byte wildcard, or the
open range `..` (never legal in a field pattern). -/
inductive ByteMatcher where
  | exact (v : Nat)
  | wildcard
  | openRange
deriving DecidableEq, Repr

/-- The per-position matchers a pattern expands to: hex `Number` / array
literal / byte-string byte become exact matchers, `__` and `_` become
wildcards, `..` becomes the open range. -/
def BytePattern.matchers : BytePattern → List ByteMatcher
  | .array elems =>
    elems.map fun e =>
      match e with
      | .lit v => ByteMatcher.exact v
      | .underscore => ByteMatcher.wildcard
      | .range => ByteMatcher.openRange
  | .hexString hex =>
    hex.map fun e =>
      match e with
      | .number v => ByteMatcher.exact v
      | .underscore => ByteMatcher.wildcard
      | .dotdot => ByteMatcher.openRange
  | .litByteStr bs => bs.map ByteMatcher.exact

/-- Run-time match of one position.  `openRange` cannot occur in a field
pattern (see the range-rejection theorem); it is given the vacuous
semantics of a `..` rest-pattern. -/
def matcherMatches : ByteMatcher → Nat → Bool
  | .exact v, b => v == b
  | .wildcard, _ => true
  | .openRange, _ => true

/-- Run-time semantics of `match buf { #byte_pattern => (), _ => ... }`
on a buffer of the pattern's length. -/
def bpMatches (bp : BytePattern) (buf : List Nat) : Bool :=
  buf.length == bp.matchers.length &&
    (List.zip bp.matchers buf).all fun mb => matcherMatches mb.1 mb.2

/-! ## Struct fields (`src/parse_struct/hex_struct_field.rs`) -/

/-- `HexStructField`: `Field` (a bound struct member, with optional
binding identifier and optional transform expression) or `Match` (a
`_:` match-only field).  Attribute and punctuation bookkeeping fields
are dropped; the member is its name. -/
inductive HexStructField where
  | fieldEntry (member : String) (bufferIdent : Option String)
      (bytePattern : BytePattern) (expr : Option SynExpr)
  | matchOnly (bytePattern : BytePattern)
deriving DecidableEq, Repr

/-- `HexStructField::byte_pattern`. -/
def HexStructField.bytePattern : HexStructField → BytePattern
  | .fieldEntry _ _ bp _ => bp
  | .matchOnly bp => bp

/-- Tokens of the braced field-list content, pre-lexed: a pattern
literal or a transform expression is a single token (their inner
parsing is `syn`'s business, modelled by `bytePatternParse`). -/
inductive Tok where
  | underscore
  | ident (s : String)
  | colon
  | atSign
  | fatArrow
  | comma
  | dotdot
  | pat (p : PatternInput)
  | expr (e : SynExpr)
deriving DecidableEq, Repr

/-- `impl Parse for HexStructField`, arm for arm:
`_` peeked → `Match` (colon, then error on a peeked `Ident`, the
pattern, then error on a peeked `=>`); otherwise member, colon, an
optional `ident @` binding (the `@` mandatory once an identifier is
peeked), the pattern, and a `=> expr` transform parsed only when a
binding is present. -/
def fieldParse : List Tok → Except ParseErr (HexStructField × List Tok)
  | Tok.underscore :: rest =>
    (match rest with
     | Tok.colon :: rest1 =>
       (match rest1 with
        | Tok.ident _ :: _ => .error .bindingNotAllowed
        | Tok.pat p :: rest2 =>
          (match bytePatternParse p with
           | .error e => .error e
           | .ok bp =>
             match rest2 with
             | Tok.fatArrow :: _ => .error .bindingNotAllowed
             | _ => .ok (.matchOnly bp, rest2))
        | _ => .error .expectedPattern)
     | _ => .error .expectedColon)
  | Tok.ident m :: rest =>
    (match rest with
     | Tok.colon :: rest1 =>
       (match rest1 with
        | Tok.ident b :: rest2 =>
          (match rest2 with
           | Tok.atSign :: rest3 =>
             (match rest3 with
              | Tok.pat p :: rest4 =>
                (match bytePatternParse p with
                 | .error e => .error e
                 | .ok bp =>
                   match rest4 with
                   | Tok.fatArrow :: rest5 =>
                     (match rest5 with
                      | Tok.expr e :: rest6 =>
                        .ok (.fieldEntry m (some b) bp (some e), rest6)
                      | _ => .error .expectedExpr)
                   | _ => .error .expectedFatArrow)
              | _ => .error .expectedPattern)
           | _ => .error .expectedAtSign)
        | Tok.pat p :: rest2 =>
          (match bytePatternParse p with
           | .error e => .error e
           | .ok bp => .ok (.fieldEntry m none bp none, rest2))
        | _ => .error .expectedPattern)
     | _ => .error .expectedColon)
  | _ => .error .expectedMember

/-! ## Field-list loop (`impl Parse for HexStruct`) -/

/-- The `while !content.is_empty()` loop of `HexStruct::parse`: a peeked
`..` ends the list early (with an optional trailing rest expression),
otherwise one field is parsed, followed by a mandatory `,` unless the
content is exhausted.  The result pairs the field list with the
`..`/rest information (`none` = no `..`; `some none` = bare `..`;
`some (some e)` = `.. e`).  The fuel argument bounds the loop; the
`fuel` error is unreachable for fuel exceeding the token count since
each iteration consumes at least one token. -/
def structFieldsGo : Nat → List Tok → Except ParseErr (List HexStructField × Option (Option SynExpr))
  | _, [] => .ok ([], none)
  | 0, _ :: _ => .error .fuel
  | _ + 1, Tok.dotdot :: rest =>
    (match rest with
     | [] => .ok ([], some none)
     | Tok.expr e :: _ => .ok ([], some (some e))
     | _ => .error .expectedExpr)
  | fuel + 1, t :: ts =>
    match fieldParse (t :: ts) with
    | .error e => .error e
    | .ok (f, rest) =>
      match rest with
      | [] => .ok ([f], none)
      | Tok.comma :: rest1 =>
        (match structFieldsGo fuel rest1 with
         | .error e => .error e
         | .ok (fs, r) => .ok (f :: fs, r))
      | _ => .error .expectedComma

/-- Field-list parsing with sufficient fuel. -/
def structFieldsParse (ts : List Tok) : Except ParseErr (List HexStructField × Option (Option SynExpr)) :=
  structFieldsGo (ts.length + 1) ts

/-! ## Generated-code structure (`impl ToTokens for HexStruct` and
`HexStructField::to_tokens`) -/

/-- The read call a field's generated block performs. -/
inductive ReadCall where
  | read
  | readExact
deriving DecidableEq, Repr

/-- Which buffer a field's generated block reads into: a fresh local
`let mut buf: [u8; len] = [0; len];` of the field's length, or the
leading `len`-byte slice of the plan-wide shared array. -/
inductive BufKind where
  | freshLocal (len : Nat)
  | sharedSlice (len : Nat)
deriving DecidableEq, Repr

/-- Structural description of the block `HexStructField::to_tokens`
emits for one field: the buffer declaration, the read call applied to
it, and the pattern matched against it. -/
structure GenStep where
  buf : BufKind
  readCall : ReadCall
  pattern : BytePattern
deriving DecidableEq, Repr

/-- `HexStructField::to_tokens` (both the `Match` and the `Field` arm)
declares `let mut <buffer>: [u8; #len] = [0; #len];` and calls
`<reader>.read(&mut <buffer>)?` before matching `#byte_pattern`. -/
def fieldGenStep (f : HexStructField) : GenStep :=
  { buf := BufKind.freshLocal f.bytePattern.len
  , readCall := ReadCall.read
  , pattern := f.bytePattern }

/-- `Iterator::max` over a list (the value of
`fields.iter().map(..).max()`). -/
def iterMax : List Nat → Option Nat
  | [] => none
  | x :: xs =>
    some (match iterMax xs with
          | none => x
          | some m => max x m)

/-- The plan-level output of `impl ToTokens for HexStruct`: the
`let mut ARRAY: [u8; #len] = [0; #len];` declaration sized by
`fields.iter().map(|f| f.byte_pattern().len()).max().unwrap_or_default()`,
and one generated block per field in declaration order. -/
structure GenPlan where
  sharedLen : Nat
  steps : List GenStep
deriving DecidableEq, Repr

/-- `impl ToTokens for HexStruct`, structurally. -/
def genPlan (fields : List HexStructField) : GenPlan :=
  { sharedLen := (iterMax (fields.map fun f => f.bytePattern.len)).getD 0
  , steps := fields.map fieldGenStep }

/-! ## Run-time semantics of the generated plan -/

/-- `std::io::ErrorKind`, restricted to the kinds the model speaks
about. -/
inductive ErrKind where
  | invalidData
  | unexpectedEof
  | otherKind (code : Nat)
deriving DecidableEq, Repr

/-- A `std::io::Error`: its kind and message. -/
structure IOErr where
  kind : ErrKind
  msg : String
deriving DecidableEq, Repr

/-- The outcome of one `Read::read` call of the scripted reader. -/
inductive ReadResult where
  | bytes (bs : List Nat)
  | ioError (e : IOErr)
deriving DecidableEq, Repr

/-- One `Read::read(&mut buf)` call against the scripted reader: at
end of script the call returns `Ok(0)` (no bytes); a scripted byte
chunk yields at most `n` bytes; a scripted error is returned as the
call's `Err`. -/
def ioRead (script : List ReadResult) (n : Nat) :
    Except IOErr (List Nat × List ReadResult) :=
  match script with
  | [] => .ok ([], [])
  | .bytes bs :: s => .ok (bs.take n, s)
  | .ioError e :: s => let _ := s; .error e

/-- The mismatch message
`format!("expected {}, got {:02X?}", byte_pattern_string, buf)`. -/
def mismatchMsg (bp : BytePattern) (buf : List Nat) : String :=
  "expected " ++ bp.display ++ ", got " ++ debugBytes buf

/-- The value a bound field stores: the raw matched byte array when no
transform is given, or the (uninterpreted) transform expression applied
to the matched bytes. -/
inductive FieldValue where
  | raw (bytes : List Nat)
  | transformed (e : SynExpr) (bytes : List Nat)
deriving DecidableEq, Repr

/-- Run-time semantics of the block `HexStructField::to_tokens` emits
for one field: zero-initialise a buffer of the pattern's length, call
`read` once (`?` propagates a reader error verbatim), match the buffer
against the pattern (mismatch: a fresh `InvalidData` error carrying the
pattern display and the read bytes), then for a bound field compute the
stored value (transform expression if present, else the raw buffer). -/
def runField (f : HexStructField) (script : List ReadResult) :
    Except IOErr (Option (String × FieldValue) × List ReadResult) :=
  match ioRead script f.bytePattern.len with
  | .error e => .error e
  | .ok (bs, script') =>
    let buf := bs ++ List.replicate (f.bytePattern.len - bs.length) 0
    if bpMatches f.bytePattern buf then
      match f with
      | .matchOnly _ => .ok (none, script')
      | .fieldEntry m _ _ expr? =>
        .ok (some (m, match expr? with
                      | some e => FieldValue.transformed e buf
                      | none => FieldValue.raw buf), script')
    else
      .error ⟨ErrKind.invalidData, mismatchMsg f.bytePattern buf⟩

/-- Run-time semantics of the whole generated plan: the fields execute
in declaration order against the single reader; the first error
short-circuits; bound fields contribute their member values in order. -/
def runPlan : List HexStructField → List ReadResult →
    Except IOErr (List (String × FieldValue) × List ReadResult)
  | [], script => .ok ([], script)
  | f :: fs, script =>
    match runField f script with
    | .error e => .error e
    | .ok (v?, script') =>
      match runPlan fs script' with
      | .error e => .error e
      | .ok (vs, s) =>
        .ok ((match v? with | some v => v :: vs | none => vs), s)

/-! ## Specification-side helper definitions (used only to state
claims, never as the model of the source) -/

/-- A hex-digit character code. -/
abbrev IsHexDigitByte (c : Nat) : Prop :=
  (48 ≤ c ∧ c ≤ 57) ∨ (97 ≤ c ∧ c ≤ 102) ∨ (65 ≤ c ∧ c ≤ 70)

/-- Nibble value of a hex-digit character. -/
def hexVal (c : Nat) : Nat :=
  if c ≤ 57 then c - 48 else if 97 ≤ c then c - 87 else c - 55

/-- Character code uppercased (lowercase hex letters mapped up). -/
def upperHexChar (c : Nat) : Nat :=
  if 97 ≤ c ∧ c ≤ 102 then c - 32 else c

/-- The byte values an even-length hex-digit string denotes, one
`HexValue.number` per character pair. -/
def hexPairsValues : List Nat → List HexValue
  | [] => []
  | [_] => []
  | c1 :: c2 :: rest => HexValue.number (hexVal c1 <<< 4 ||| hexVal c2) :: hexPairsValues rest

/-- The canonical two-character groups of an even-length hex string,
uppercased. -/
def pairGroups : List Nat → List String
  | [] => []
  | [_] => []
  | c1 :: c2 :: rest =>
    String.mk [Char.ofNat (upperHexChar c1), Char.ofNat (upperHexChar c2)] :: pairGroups rest

end HexMagic

namespace HexMagic

theorem except_map_eq_ok {α β ε : Type} {f : α → β} {r : Except ε α} {b : β}
    (h : Except.map f r = .ok b) : ∃ a, r = .ok a ∧ f a = b := by
  cases r with
  | error e => simp [Except.map] at h
  | ok a => exact ⟨a, rfl, by simpa [Except.map] using h⟩

theorem hexLexGo_eq_st (cs : List Nat) : ∀ st,
    hexLexGo st cs = Except.map Prod.fst (hexLexGoSt st cs) := by
  induction cs with
  | nil => intro st; rfl
  | cons c rest ih =>
    intro st
    simp only [hexLexGo, hexLexGoSt]
    cases hst : lexStep st c with
    | fail e => rfl
    | cont st' => exact ih st'
    | push v st' =>
      show Except.map (fun es => v :: es) (hexLexGo st' rest) =
        Except.map Prod.fst (Except.map (fun p => (v :: p.1, p.2)) (hexLexGoSt st' rest))
      rw [ih st']
      cases hexLexGoSt st' rest <;> rfl

theorem goSt_ok_continue (pre : List Nat) : ∀ suf st es st2,
    hexLexGoSt st pre = .ok (es, st2) →
    hexLexGo st (pre ++ suf) = Except.map (fun es2 => es ++ es2) (hexLexGo st2 suf) := by
  induction pre with
  | nil =>
    intro suf st es st2 h
    simp only [hexLexGoSt, Except.ok.injEq, Prod.mk.injEq] at h
    obtain ⟨rfl, rfl⟩ := h
    simp only [List.nil_append]
    cases hexLexGo st suf <;> rfl
  | cons c pre' ih =>
    intro suf st es st2 h
    simp only [hexLexGoSt] at h
    simp only [List.cons_append, hexLexGo]
    cases hst : lexStep st c with
    | fail e =>
      simp only [hst] at h
      exact absurd h (by simp)
    | cont st' =>
      simp only [hst] at h
      exact ih suf st' es st2 h
    | push v st' =>
      simp only [hst] at h
      obtain ⟨⟨es', stx⟩, hr, hfe⟩ := except_map_eq_ok h
      simp only [Prod.mk.injEq] at hfe
      obtain ⟨rfl, rfl⟩ := hfe
      show Except.map (fun es => v :: es) (hexLexGo st' (pre' ++ suf)) =
        Except.map (fun es2 => (v :: es') ++ es2) (hexLexGo stx suf)
      rw [ih suf st' es' stx hr]
      cases hexLexGo stx suf <;> rfl

end HexMagic

namespace HexMagic

theorem lexStep_idle_hex (c : Nat) (m : Nat) (h : IsHexDigitByte c) :
    lexStep ⟨m, false, false, false⟩ c = .cont ⟨hexVal c, true, false, false⟩ := by
  rcases h with ⟨ha, hb⟩ | ⟨ha, hb⟩ | ⟨ha, hb⟩ <;>
    simp only [lexStep, hexVal] <;>
    split_ifs <;> first | rfl | omega | (congr <;> omega)

theorem lexStep_complete_hex (c : Nat) (m : Nat) (h : IsHexDigitByte c) :
    lexStep ⟨m, true, false, false⟩ c =
      .push (HexValue.number (m <<< 4 ||| hexVal c)) ⟨m, false, false, false⟩ := by
  rcases h with ⟨ha, hb⟩ | ⟨ha, hb⟩ | ⟨ha, hb⟩ <;>
    simp only [lexStep, hexVal] <;>
    split_ifs <;> first | rfl | omega | (congr <;> omega)

theorem lexStep_idle_ws (m : Nat) (w : Nat) (hw : w = 32 ∨ w = 13 ∨ w = 10 ∨ w = 9) :
    lexStep ⟨m, false, false, false⟩ w = .cont ⟨m, false, false, false⟩ := by
  rcases hw with rfl | rfl | rfl | rfl <;> rfl

theorem lexStep_pending_hex_ws (m : Nat) (w : Nat) (hw : w = 32 ∨ w = 13 ∨ w = 10 ∨ w = 9) :
    lexStep ⟨m, true, false, false⟩ w = .fail (LexError.expectedHexDigit w) := by
  rcases hw with rfl | rfl | rfl | rfl <;> rfl

theorem lexStep_pending_underscore_ws (m : Nat) (nh : Bool) (w : Nat)
    (hw : w = 32 ∨ w = 13 ∨ w = 10 ∨ w = 9) :
    lexStep ⟨m, nh, true, false⟩ w = .fail (LexError.expectedUnderscore w) := by
  rcases hw with rfl | rfl | rfl | rfl <;> rfl

theorem lexStep_pending_dot_ws (m : Nat) (nh nu : Bool) (w : Nat)
    (hw : w = 32 ∨ w = 13 ∨ w = 10 ∨ w = 9) :
    lexStep ⟨m, nh, nu, true⟩ w = .fail (LexError.expectedDot w) := by
  rcases hw with rfl | rfl | rfl | rfl <;> rfl

theorem lexStep_idle_underscoreTok (m : Nat) :
    lexStep ⟨m, false, false, false⟩ 95 = .cont ⟨m, false, true, false⟩ := rfl

theorem lexStep_idle_dotTok (m : Nat) :
    lexStep ⟨m, false, false, false⟩ 46 = .cont ⟨m, false, false, true⟩ := rfl

theorem lex_pair (c1 c2 : Nat) (rest : List Nat) (m : Nat)
    (h1 : IsHexDigitByte c1) (h2 : IsHexDigitByte c2) :
    hexLexGo ⟨m, false, false, false⟩ (c1 :: c2 :: rest) =
      Except.map (fun es => HexValue.number (hexVal c1 <<< 4 ||| hexVal c2) :: es)
        (hexLexGo ⟨hexVal c1, false, false, false⟩ rest) := by
  have s1 := lexStep_idle_hex c1 m h1
  have s2 := lexStep_complete_hex c2 (hexVal c1) h2
  simp only [hexLexGo, s1, s2]

theorem shiftlor_div_mod : ∀ a, a < 16 → ∀ b, b < 16 →
    (a <<< 4 ||| b) / 16 = a ∧ (a <<< 4 ||| b) % 16 = b := by decide

theorem hexVal_upper : ∀ c, c < 103 → IsHexDigitByte c →
    hexVal c < 16 ∧ hexDigitCode (hexVal c) = upperHexChar c := by decide

theorem hexDigit_lt (c : Nat) (h : IsHexDigitByte c) : c < 103 := by
  rcases h with ⟨_, hb⟩ | ⟨_, hb⟩ | ⟨_, hb⟩ <;> omega

theorem hexLexGo_pairs : ∀ chars, (∀ c ∈ chars, IsHexDigitByte c) → chars.length % 2 = 0 →
    ∀ m, hexLexGo ⟨m, false, false, false⟩ chars = .ok (hexPairsValues chars) := by
  intro chars
  induction chars using hexPairsValues.induct with
  | case1 => intro _ _ m; rfl
  | case2 c => intro _ he; simp at he
  | case3 c1 c2 rest ih =>
    intro hh he m
    have h1 : IsHexDigitByte c1 := hh c1 (by simp)
    have h2 : IsHexDigitByte c2 := hh c2 (by simp)
    rw [lex_pair c1 c2 rest m h1 h2]
    rw [ih (fun c hc => hh c (by simp [hc]))
        (by simp only [List.length_cons] at he ⊢; omega) (hexVal c1)]
    rfl

theorem map_display_pairs : ∀ chars, (∀ c ∈ chars, IsHexDigitByte c) →
    (hexPairsValues chars).map hexValueDisplay = pairGroups chars := by
  intro chars
  induction chars using hexPairsValues.induct with
  | case1 => intro _; rfl
  | case2 c => intro _; simp [hexPairsValues, pairGroups]
  | case3 c1 c2 rest ih =>
    intro hh
    have h1 : IsHexDigitByte c1 := hh c1 (by simp)
    have h2 : IsHexDigitByte c2 := hh c2 (by simp)
    obtain ⟨l1, e1⟩ := hexVal_upper c1 (hexDigit_lt c1 h1) h1
    obtain ⟨l2, e2⟩ := hexVal_upper c2 (hexDigit_lt c2 h2) h2
    obtain ⟨d1, d2⟩ := shiftlor_div_mod (hexVal c1) l1 (hexVal c2) l2
    simp only [hexPairsValues, pairGroups, List.map_cons,
      ih (fun c hc => hh c (by simp [hc]))]
    congr 1
    simp [hexValueDisplay, byteHex, d1, d2, e1, e2]

theorem hexPairsValues_length : ∀ chars, (hexPairsValues chars).length = chars.length / 2 := by
  intro chars
  induction chars using hexPairsValues.induct with
  | case1 => rfl
  | case2 c => simp [hexPairsValues]
  | case3 c1 c2 rest ih =>
    simp only [hexPairsValues, List.length_cons, ih]
    omega

end HexMagic

namespace HexMagic

/-- Claim C3, counterexample: the input `"A53"` (bytes `[65, 53, 51]`)
ends with the unpaired hex digit `3`, yet lexing succeeds and silently
drops the trailing character, returning the shorter one-byte pattern
`[A5]` instead of a lexical error. -/
theorem c3_counterexample : hexLex [65, 53, 51] = .ok [HexValue.number 165] := by
  rfl

/-- Claim C3 (amended): the lexer never fails at end of input over a
pending token — it drops it: if the lexer is idle (no pending token)
after `chars`, then appending a single trailing hex digit, `_`, or `.`
still lexes successfully, to the same (unchanged, shorter-by-one-token)
pattern: the trailing orphan is silently dropped. -/
theorem c3_amended_trailing_orphan_dropped :
    ∀ chars es m c,
    hexLexGoSt ⟨0, false, false, false⟩ chars = .ok (es, ⟨m, false, false, false⟩) →
    (IsHexDigitByte c ∨ c = 95 ∨ c = 46) →
    hexLex (chars ++ [c]) = .ok es := by
  intro chars es m c h hc
  unfold hexLex
  rw [goSt_ok_continue chars [c] ⟨0, false, false, false⟩ es ⟨m, false, false, false⟩ h]
  have hone : hexLexGo ⟨m, false, false, false⟩ [c] = .ok [] := by
    rcases hc with hc | rfl | rfl
    · simp only [hexLexGo, lexStep_idle_hex c m hc]
    · simp only [hexLexGo, lexStep_idle_underscoreTok m]
    · simp only [hexLexGo, lexStep_idle_dotTok m]
  rw [hone]
  simp [Except.map]

theorem c3_amended_witness : hexLex [65, 53, 95] = .ok [HexValue.number 165] :=
  c3_amended_trailing_orphan_dropped [65, 53] [HexValue.number 165] 10 95
    rfl (Or.inr (Or.inl rfl))

/-- Claim C8 (confirmed): inserting an ASCII whitespace character
(space, CR, LF, TAB) at a point where the lexer is between complete
tokens never changes the result of lexing; and whitespace in the middle
of any not-yet-completed two-character token — a pending hex pair, a
pending `__` wildcard, or a pending `..` range — is a lexical error
(`expectedHexDigit` / `expectedUnderscore` / `expectedDot`
respectively). -/
theorem c8_whitespace_insertion_invariant :
    ∀ pre suf es m w, (w = 32 ∨ w = 13 ∨ w = 10 ∨ w = 9) →
    hexLexGoSt ⟨0, false, false, false⟩ pre = .ok (es, ⟨m, false, false, false⟩) →
    hexLex (pre ++ w :: suf) = hexLex (pre ++ suf) ∧
    (∀ m2 suf2, hexLexGo ⟨m2, true, false, false⟩ (w :: suf2) =
      .error (LexError.expectedHexDigit w)) ∧
    (∀ m2 nh suf2, hexLexGo ⟨m2, nh, true, false⟩ (w :: suf2) =
      .error (LexError.expectedUnderscore w)) ∧
    (∀ m2 nh nu suf2, hexLexGo ⟨m2, nh, nu, true⟩ (w :: suf2) =
      .error (LexError.expectedDot w)) := by
  intro pre suf es m w hw h
  refine ⟨?_, ?_, ?_, ?_⟩
  · unfold hexLex
    rw [goSt_ok_continue pre (w :: suf) _ es _ h, goSt_ok_continue pre suf _ es _ h]
    congr 1
    simp only [hexLexGo, lexStep_idle_ws m w hw]
  · intro m2 suf2
    simp only [hexLexGo, lexStep_pending_hex_ws m2 w hw]
  · intro m2 nh suf2
    simp only [hexLexGo, lexStep_pending_underscore_ws m2 nh w hw]
  · intro m2 nh nu suf2
    simp only [hexLexGo, lexStep_pending_dot_ws m2 nh nu w hw]

theorem c8_witness :
    hexLex [65, 65, 32, 66, 66] = hexLex [65, 65, 66, 66] ∧
    hexLexGo ⟨10, true, false, false⟩ [32, 65] = .error (LexError.expectedHexDigit 32) ∧
    hexLexGo ⟨0, false, true, false⟩ [32, 95] = .error (LexError.expectedUnderscore 32) ∧
    hexLexGo ⟨0, false, false, true⟩ [32, 46] = .error (LexError.expectedDot 32) := by
  obtain ⟨h1, h2, h3, h4⟩ :=
    c8_whitespace_insertion_invariant [65, 65] [66, 66] [HexValue.number 170] 10 32
      (Or.inl rfl) rfl
  exact ⟨h1, h2 10 [65], h3 0 false [95], h4 0 false false [46]⟩

/-- Claim C7 (confirmed): an even-length string of hex digits lexes to
one `Exact` byte per character pair, and the canonical display of the
result is the bracketed, comma-separated sequence of the input's
uppercased two-character groups; the pattern length is half the
character count. -/
theorem c7_hex_roundtrip_display :
    ∀ chars, (∀ c ∈ chars, IsHexDigitByte c) → chars.length % 2 = 0 →
    hexLex chars = .ok (hexPairsValues chars) ∧
    hexStringDisplay (hexPairsValues chars) =
      "[" ++ String.intercalate ", " (pairGroups chars) ++ "]" ∧
    (hexPairsValues chars).length = chars.length / 2 := by
  intro chars hh he
  refine ⟨hexLexGo_pairs chars hh he 0, ?_, hexPairsValues_length chars⟩
  unfold hexStringDisplay
  rw [map_display_pairs chars hh]

theorem c7_witness :
    hexLex [55, 100, 50, 98] = .ok (hexPairsValues [55, 100, 50, 98]) ∧
    hexStringDisplay (hexPairsValues [55, 100, 50, 98]) = "[7D, 2B]" := by
  obtain ⟨h1, h2, _⟩ := c7_hex_roundtrip_display [55, 100, 50, 98] (by decide) (by decide)
  exact ⟨h1, by rw [h2]; rfl⟩

end HexMagic

namespace HexMagic

/-- Claim C1, counterexample: a field list with two adjacent skip-only
(`_:`) fields — the first two fields of the crate's own documentation
example — parses successfully; no "consecutive match-only" error
exists in the code. -/
theorem c1_counterexample :
    structFieldsParse [Tok.underscore, Tok.colon, Tok.pat (.litByteStr [72, 69, 88]),
        Tok.comma, Tok.underscore, Tok.colon, Tok.pat (.array [SynExpr.lit 0])] =
      .ok ([HexStructField.matchOnly (.litByteStr [72, 69, 88]),
            HexStructField.matchOnly (.array [SynExpr.lit 0])], none) := by
  rfl

/-- Claim C1 (amended): the plan compiler performs no adjacency check at
all: two adjacent well-formed skip-only fields compile exactly like a
skip-only field adjacent to a bound field, in every order. -/
theorem c1_amended_no_adjacency_check :
    ∀ p q bp bq m, bytePatternParse p = .ok bp → bytePatternParse q = .ok bq →
    structFieldsParse [Tok.underscore, Tok.colon, Tok.pat p, Tok.comma,
        Tok.underscore, Tok.colon, Tok.pat q] =
      .ok ([HexStructField.matchOnly bp, HexStructField.matchOnly bq], none) ∧
    structFieldsParse [Tok.underscore, Tok.colon, Tok.pat p, Tok.comma,
        Tok.ident m, Tok.colon, Tok.pat q] =
      .ok ([HexStructField.matchOnly bp, HexStructField.fieldEntry m none bq none], none) ∧
    structFieldsParse [Tok.ident m, Tok.colon, Tok.pat p, Tok.comma,
        Tok.underscore, Tok.colon, Tok.pat q] =
      .ok ([HexStructField.fieldEntry m none bp none, HexStructField.matchOnly bq], none) := by
  intro p q bp bq m hp hq
  refine ⟨?_, ?_, ?_⟩ <;>
    simp only [structFieldsParse, List.length_cons, List.length_nil, structFieldsGo,
      fieldParse, hp, hq]

theorem c1_amended_witness :
    structFieldsParse [Tok.underscore, Tok.colon, Tok.pat (.litStr [48, 48]), Tok.comma,
        Tok.underscore, Tok.colon, Tok.pat (.litByteStr [1])] =
      .ok ([HexStructField.matchOnly (.hexString [HexValue.number 0]),
            HexStructField.matchOnly (.litByteStr [1])], none) :=
  (c1_amended_no_adjacency_check (.litStr [48, 48]) (.litByteStr [1])
    (.hexString [HexValue.number 0]) (.litByteStr [1]) "a" rfl rfl).1

/-- Claim C4, counterexample: a bound field without a binding but with a
`=> transform` is a parse error (`expected ,` at the stray `=>`), not a
legal optional transform. -/
theorem c4_counterexample :
    structFieldsParse [Tok.ident "a", Tok.colon, Tok.pat (.litByteStr [255]),
        Tok.fatArrow, Tok.expr (SynExpr.lit 0)] = .error .expectedComma := by
  rfl

/-- Claim C4 (amended): a transform is allowed exactly when a binding is
present: with a binding the `=>` transform is mandatory (its absence is
a parse error, mid-list or at end of input); without a binding a
transform may not appear (its presence is a parse error), and the value
stored for a transform-less bound field is the raw matched byte
array. -/
theorem c4_amended_transform_iff_binding :
    ∀ m b p bp (e : SynExpr) rest script bs s',
    bytePatternParse p = .ok bp →
    (fieldParse (Tok.ident m :: Tok.colon :: Tok.ident b :: Tok.atSign ::
        Tok.pat p :: Tok.comma :: rest) = .error .expectedFatArrow) ∧
    (fieldParse [Tok.ident m, Tok.colon, Tok.ident b, Tok.atSign, Tok.pat p] =
      .error .expectedFatArrow) ∧
    (structFieldsParse (Tok.ident m :: Tok.colon :: Tok.pat p :: Tok.fatArrow ::
        Tok.expr e :: rest) = .error .expectedComma) ∧
    (fieldParse (Tok.ident m :: Tok.colon :: Tok.pat p :: rest) =
      .ok (.fieldEntry m none bp none, rest)) ∧
    (ioRead script bp.len = .ok (bs, s') →
     bpMatches bp (bs ++ List.replicate (bp.len - bs.length) 0) = true →
     runField (.fieldEntry m none bp none) script =
       .ok (some (m, FieldValue.raw (bs ++ List.replicate (bp.len - bs.length) 0)), s')) := by
  intro m b p bp e rest script bs s' hp
  refine ⟨?_, ?_, ?_, ?_, ?_⟩
  · simp only [fieldParse, hp]
  · simp only [fieldParse, hp]
  · simp only [structFieldsParse, List.length_cons, structFieldsGo, fieldParse, hp]
  · simp only [fieldParse, hp]
  · intro hio hm
    simp only [runField, HexStructField.bytePattern, hio, hm, if_true]

theorem c4_amended_witness :
    fieldParse [Tok.ident "a", Tok.colon, Tok.ident "buf", Tok.atSign,
      Tok.pat (.litByteStr [72])] = .error .expectedFatArrow ∧
    runField (.fieldEntry "a" none (.litByteStr [72]) none) [ReadResult.bytes [72]] =
      .ok (some ("a", FieldValue.raw [72]), []) := by
  obtain ⟨-, h2, -, -, h5⟩ := c4_amended_transform_iff_binding "a" "buf"
    (.litByteStr [72]) (.litByteStr [72]) (SynExpr.lit 0) []
    [ReadResult.bytes [72]] [72] [] rfl
  exact ⟨h2, h5 rfl rfl⟩

/-- Claim C9 (confirmed): a field-context pattern containing a range
token always fails with the "ranges are not allowed" error — for a hex
string whose (otherwise valid) tokens include `..`, and for an array
pattern containing a range expression — and consequently a successfully
parsed field pattern never contains an `openRange` matcher. -/
theorem c9_ranges_rejected_in_field_patterns :
    ∀ chars es elems inp bp,
    (hexLex chars = .ok es → HexValue.dotdot ∈ es →
      bytePatternParse (.litStr chars) = .error .rangesNotAllowed) ∧
    (SynExpr.range ∈ elems →
      bytePatternParse (.array elems) = .error .rangesNotAllowed) ∧
    (bytePatternParse inp = .ok bp → ByteMatcher.openRange ∉ bp.matchers) := by
  intro chars es elems inp bp
  refine ⟨?_, ?_, ?_⟩
  · intro hlex hmem
    have hd : hasDotDot es = true := by
      simp only [hasDotDot, List.any_eq_true]
      exact ⟨_, hmem, rfl⟩
    simp only [bytePatternParse, hlex, hd, if_true]
  · intro hmem
    have hr : hasRangeExpr elems = true := by
      simp only [hasRangeExpr, List.any_eq_true]
      exact ⟨_, hmem, rfl⟩
    simp only [bytePatternParse, hr, if_true]
  · intro hok hmem
    cases inp with
    | litByteStr bs =>
      simp only [bytePatternParse, Except.ok.injEq] at hok
      subst hok
      simp only [BytePattern.matchers, List.mem_map] at hmem
      obtain ⟨x, -, hx⟩ := hmem
      exact absurd hx (by simp)
    | litStr chars2 =>
      simp only [bytePatternParse] at hok
      cases hlex2 : hexLex chars2 with
      | error e2 =>
        simp only [hlex2] at hok
        exact absurd hok (by simp)
      | ok es2 =>
        simp only [hlex2] at hok
        by_cases hd : hasDotDot es2
        · rw [if_pos hd] at hok; exact absurd hok (by simp)
        · rw [if_neg hd] at hok
          simp only [Except.ok.injEq] at hok
          subst hok
          simp only [BytePattern.matchers, List.mem_map] at hmem
          obtain ⟨x, hxmem, hx⟩ := hmem
          cases x with
          | number v => exact absurd hx (by simp)
          | underscore => exact absurd hx (by simp)
          | dotdot =>
            exact hd (by simp only [hasDotDot, List.any_eq_true]; exact ⟨_, hxmem, rfl⟩)
    | array elems2 =>
      simp only [bytePatternParse] at hok
      by_cases hr : hasRangeExpr elems2
      · rw [if_pos hr] at hok; exact absurd hok (by simp)
      · rw [if_neg hr] at hok
        simp only [Except.ok.injEq] at hok
        subst hok
        simp only [BytePattern.matchers, List.mem_map] at hmem
        obtain ⟨x, hxmem, hx⟩ := hmem
        cases x with
        | lit v => exact absurd hx (by simp)
        | underscore => exact absurd hx (by simp)
        | range =>
          exact hr (by simp only [hasRangeExpr, List.any_eq_true]; exact ⟨_, hxmem, rfl⟩)

theorem c9_witness :
    bytePatternParse (.litStr [46, 46]) = .error .rangesNotAllowed ∧
    bytePatternParse (.array [SynExpr.lit 1, SynExpr.range]) = .error .rangesNotAllowed ∧
    ByteMatcher.openRange ∉ (BytePattern.litByteStr [72]).matchers := by
  obtain ⟨h1, h2, h3⟩ := c9_ranges_rejected_in_field_patterns [46, 46] [HexValue.dotdot]
    [SynExpr.lit 1, SynExpr.range] (.litByteStr [72]) (.litByteStr [72])
  exact ⟨h1 rfl (by simp), h2 (by simp), h3 rfl⟩

end HexMagic

namespace HexMagic

theorem ioRead_error_mem {script : List ReadResult} {n : Nat} {e : IOErr}
    (h : ioRead script n = .error e) : ReadResult.ioError e ∈ script := by
  cases script with
  | nil => simp [ioRead] at h
  | cons r s =>
    cases r with
    | bytes bs => simp [ioRead] at h
    | ioError e2 =>
      simp only [ioRead, Except.error.injEq] at h
      subst h
      exact List.mem_cons_self _ _

theorem ioRead_ok_sub {script : List ReadResult} {n : Nat} {bs : List Nat}
    {s' : List ReadResult} (h : ioRead script n = .ok (bs, s')) : ∀ x ∈ s', x ∈ script := by
  cases script with
  | nil =>
    simp only [ioRead, Except.ok.injEq, Prod.mk.injEq] at h
    obtain ⟨-, rfl⟩ := h
    intro x hx
    simp at hx
  | cons r s =>
    cases r with
    | bytes bs2 =>
      simp only [ioRead, Except.ok.injEq, Prod.mk.injEq] at h
      obtain ⟨-, rfl⟩ := h
      intro x hx
      exact List.mem_cons_of_mem _ hx
    | ioError e => simp [ioRead] at h

theorem runField_error_classify (f : HexStructField) (script : List ReadResult) (e : IOErr)
    (h : runField f script = .error e) :
    ReadResult.ioError e ∈ script ∨
      (e.kind = ErrKind.invalidData ∧ ∃ bp buf, e.msg = mismatchMsg bp buf) := by
  unfold runField at h
  cases hio : ioRead script f.bytePattern.len with
  | error e2 =>
    simp only [hio, Except.error.injEq] at h
    subst h
    exact Or.inl (ioRead_error_mem hio)
  | ok p =>
    obtain ⟨bs, s2⟩ := p
    simp only [hio] at h
    by_cases hm : bpMatches f.bytePattern (bs ++ List.replicate (f.bytePattern.len - bs.length) 0)
    · rw [if_pos hm] at h
      cases f with
      | matchOnly bp => simp at h
      | fieldEntry m bi bp ex => simp at h
    · rw [if_neg hm] at h
      simp only [Except.error.injEq] at h
      subst h
      exact Or.inr ⟨rfl, f.bytePattern, _, rfl⟩

theorem runField_ok_sub (f : HexStructField) (script : List ReadResult)
    (v : Option (String × FieldValue)) (s' : List ReadResult)
    (h : runField f script = .ok (v, s')) : ∀ x ∈ s', x ∈ script := by
  unfold runField at h
  cases hio : ioRead script f.bytePattern.len with
  | error e2 =>
    simp only [hio] at h
    exact absurd h (by simp)
  | ok p =>
    obtain ⟨bs, s2⟩ := p
    simp only [hio] at h
    by_cases hm : bpMatches f.bytePattern (bs ++ List.replicate (f.bytePattern.len - bs.length) 0)
    · rw [if_pos hm] at h
      have hs : s' = s2 := by
        cases f with
        | matchOnly bp =>
          simp only [Except.ok.injEq, Prod.mk.injEq] at h
          exact h.2.symm
        | fieldEntry m bi bp ex =>
          simp only [Except.ok.injEq, Prod.mk.injEq] at h
          exact h.2.symm
      subst hs
      exact ioRead_ok_sub hio
    · rw [if_neg hm] at h
      simp at h

theorem runPlan_error_classify (fs : List HexStructField) :
    ∀ script e, runPlan fs script = .error e →
    ReadResult.ioError e ∈ script ∨
      (e.kind = ErrKind.invalidData ∧ ∃ bp buf, e.msg = mismatchMsg bp buf) := by
  induction fs with
  | nil => intro script e h; simp [runPlan] at h
  | cons f fs ih =>
    intro script e h
    simp only [runPlan] at h
    cases hrf : runField f script with
    | error e2 =>
      simp only [hrf, Except.error.injEq] at h
      subst h
      exact runField_error_classify f script e2 hrf
    | ok p =>
      obtain ⟨v, s'⟩ := p
      simp only [hrf] at h
      cases hrp : runPlan fs s' with
      | error e2 =>
        simp only [hrp, Except.error.injEq] at h
        subst h
        rcases ih s' e2 hrp with hmem | hpat
        · exact Or.inl (runField_ok_sub f script v s' hrf _ hmem)
        · exact Or.inr hpat
      | ok q =>
        simp only [hrp] at h
        cases v <;> simp at h

/-- Claim C10 (confirmed): every error the generated plan returns is
either a reader error propagated verbatim (it is one of the reader's
own scripted errors) or a pattern-mismatch error, which is always a
fresh `InvalidData` error whose message is
`"expected {pattern display}, got {read bytes}"`; consequently, when
the reader never itself fails with `InvalidData`, an `InvalidData`
result always denotes a data mismatch, so the caller can distinguish
the two failure classes by the error's kind. -/
theorem c10_error_taxonomy :
    ∀ fs script e, runPlan fs script = .error e →
    (ReadResult.ioError e ∈ script ∨
      (e.kind = ErrKind.invalidData ∧ ∃ bp buf, e.msg = mismatchMsg bp buf)) ∧
    ((∀ e2, ReadResult.ioError e2 ∈ script → e2.kind ≠ ErrKind.invalidData) →
      e.kind = ErrKind.invalidData → ∃ bp buf, e.msg = mismatchMsg bp buf) := by
  intro fs script e h
  refine ⟨runPlan_error_classify fs script e h, ?_⟩
  intro hg hk
  rcases runPlan_error_classify fs script e h with hmem | hpat
  · exact absurd hk (hg e hmem)
  · exact hpat.2

theorem c10_witness :
    (ReadResult.ioError ⟨ErrKind.invalidData,
        mismatchMsg (BytePattern.litByteStr [1]) [0]⟩ ∈ ([] : List ReadResult) ∨
      ((⟨ErrKind.invalidData, mismatchMsg (BytePattern.litByteStr [1]) [0]⟩ : IOErr).kind =
          ErrKind.invalidData ∧
        ∃ bp buf, (⟨ErrKind.invalidData,
            mismatchMsg (BytePattern.litByteStr [1]) [0]⟩ : IOErr).msg = mismatchMsg bp buf)) :=
  (c10_error_taxonomy [HexStructField.matchOnly (BytePattern.litByteStr [1])] []
    ⟨ErrKind.invalidData, mismatchMsg (BytePattern.litByteStr [1]) [0]⟩ rfl).1

/-- Claim C2 (code bug): the generated plan's read step uses
`Read::read`, which does not fully fill the buffer: a reader that
reaches end of stream after 2 bytes of a 3-byte field makes `read`
return `Ok(2)` with no error; the zero-padded buffer then fails the
pattern match, so the parse returns an `InvalidData` mismatch error —
not the propagated end-of-stream I/O error the claim (and the crate's
own documented `read_exact` expansion) requires. -/
theorem c2_short_read_mismatch_eval :
    runPlan [HexStructField.matchOnly (BytePattern.hexString
        [HexValue.number 72, HexValue.number 69, HexValue.number 88])]
      [ReadResult.bytes [72, 69]] =
    .error ⟨ErrKind.invalidData, "expected [48, 45, 58], got [48, 45, 00]"⟩ := by
  rfl

end HexMagic

namespace HexMagic

theorem iterMax_eq_none {l : List Nat} : iterMax l = none ↔ l = [] := by
  cases l <;> simp [iterMax]

theorem le_iterMax (l : List Nat) : ∀ x ∈ l, x ≤ (iterMax l).getD 0 := by
  induction l with
  | nil => simp
  | cons a t ih =>
    intro x hx
    rcases List.mem_cons.mp hx with rfl | hxt
    · simp only [iterMax]
      cases iterMax t with
      | none => simp
      | some m => simp
    · have hle := ih x hxt
      simp only [iterMax]
      cases hm : iterMax t with
      | none =>
        have ht : t = [] := iterMax_eq_none.mp hm
        subst ht
        simp at hxt
      | some mm =>
        rw [hm] at hle
        simp only [Option.getD_some] at hle ⊢
        omega
  
theorem iterMax_attained (l : List Nat) (h : l ≠ []) : ∃ x ∈ l, iterMax l = some x := by
  induction l with
  | nil => exact absurd rfl h
  | cons a t ih =>
    by_cases ht : t = []
    · subst ht
      exact ⟨a, by simp, by simp [iterMax]⟩
    · obtain ⟨x, hx, hmax⟩ := ih ht
      simp only [iterMax, hmax]
      rcases max_choice a x with hc | hc
      · exact ⟨a, by simp, by rw [hc]⟩
      · exact ⟨x, by simp [hx], by rw [hc]⟩

/-- Claim C6 (confirmed): the capacity of the shared scratch array the
plan declares is exactly the maximum of `pattern.len` over all fields
(an upper bound that is attained by some field whenever the field list
is nonempty), and it is 0 for an empty field list. -/
theorem c6_shared_capacity_is_max :
    ∀ fs, (∀ f ∈ fs, (HexStructField.bytePattern f).len ≤ (genPlan fs).sharedLen) ∧
    (fs = [] → (genPlan fs).sharedLen = 0) ∧
    (fs ≠ [] → ∃ f ∈ fs, (genPlan fs).sharedLen = (HexStructField.bytePattern f).len) := by
  intro fs
  refine ⟨?_, ?_, ?_⟩
  · intro f hf
    have := le_iterMax (fs.map fun g => g.bytePattern.len) _
      (List.mem_map_of_mem _ hf)
    simpa [genPlan] using this
  · intro h; subst h; rfl
  · intro h
    have hne : fs.map (fun g => g.bytePattern.len) ≠ [] := by simpa using h
    obtain ⟨x, hx, hmax⟩ := iterMax_attained _ hne
    obtain ⟨f, hf, rfl⟩ := List.mem_map.mp hx
    exact ⟨f, hf, by simp [genPlan, hmax]⟩

theorem c6_witness :
    (HexStructField.bytePattern (HexStructField.matchOnly
        (BytePattern.litByteStr [72, 69]))).len ≤
      (genPlan [HexStructField.matchOnly (BytePattern.litByteStr [72, 69]),
        HexStructField.matchOnly (BytePattern.litByteStr [1])]).sharedLen ∧
    ∃ f ∈ [HexStructField.matchOnly (BytePattern.litByteStr [72, 69]),
        HexStructField.matchOnly (BytePattern.litByteStr [1])],
      (genPlan [HexStructField.matchOnly (BytePattern.litByteStr [72, 69]),
        HexStructField.matchOnly (BytePattern.litByteStr [1])]).sharedLen =
        (HexStructField.bytePattern f).len := by
  obtain ⟨h1, h2, h3⟩ := c6_shared_capacity_is_max
    [HexStructField.matchOnly (BytePattern.litByteStr [72, 69]),
     HexStructField.matchOnly (BytePattern.litByteStr [1])]
  exact ⟨h1 _ (by simp), h3 (by simp)⟩

theorem steps_readCall_aux (fs : List HexStructField) :
    (fs.map fieldGenStep).map GenStep.readCall = fs.map fun _ => ReadCall.read := by
  induction fs with
  | nil => rfl
  | cons f t ih => simp only [List.map_cons, ih, fieldGenStep]

/-- Claim C5 (code bug): every field block the plan generator emits
declares its own fresh local buffer of exactly the field's pattern
length and calls plain `read` on it; no generated step reads into the
(declared but unused) shared array's leading slice. -/
theorem c5_per_field_buffer_eval :
    ∀ fs, (genPlan fs).steps.map GenStep.buf =
        fs.map (fun f => BufKind.freshLocal (HexStructField.bytePattern f).len) ∧
      (genPlan fs).steps.map GenStep.readCall = fs.map (fun _ => ReadCall.read) ∧
      ∀ s ∈ (genPlan fs).steps, ∀ n, s.buf ≠ BufKind.sharedSlice n := by
  intro fs
  refine ⟨?_, ?_, ?_⟩
  · simp [genPlan, fieldGenStep]
  · exact steps_readCall_aux fs
  · intro s hs n
    simp only [genPlan, List.mem_map] at hs
    obtain ⟨f, -, rfl⟩ := hs
    simp [fieldGenStep]

theorem c5_witness :
    (genPlan [HexStructField.matchOnly (BytePattern.litByteStr [72, 69, 88])]).steps.map
        GenStep.buf = [BufKind.freshLocal 3] ∧
    ∀ n, (fieldGenStep (HexStructField.matchOnly
        (BytePattern.litByteStr [72, 69, 88]))).buf ≠ BufKind.sharedSlice n := by
  obtain ⟨h1, h2, h3⟩ := c5_per_field_buffer_eval
    [HexStructField.matchOnly (BytePattern.litByteStr [72, 69, 88])]
  exact ⟨h1, fun n => h3 _ (by simp [genPlan]) n⟩

end HexMagic
